import Mathlib

/-!
Verification of the meditamer Wi-Fi upload regression harness:
a shallow embedding in Lean 4 of the serial console driver, the
resilient HTTP uploader and the regression orchestrator found in
scripts/test_wifi_upload_regression_serial.py and
scripts/upload_assets_http.py, together with proofs of the
testable properties stated for them.

Wall-clock time is embedded as explicit natural-number
millisecond counters threaded through each loop; blocking I/O
calls become oracle functions (one abstract outcome per call)
so that every loop of the scripts is a total Lean function.
-/

namespace Meditamer

/-- Python whitespace characters recognised by str.strip (ASCII subset:
space, tab, newline, carriage return, vertical tab, form feed). -/
def pyIsSpace (c : Char) : Bool :=
  c = ' ' || c = '\t' || c = '\n' || c = '\r' || c = '\x0b' || c = '\x0c'

/-- Embedding of Python str.strip() on a character list: drop leading and
trailing whitespace. -/
def pstrip (l : List Char) : List Char :=
  ((l.dropWhile pyIsSpace).reverse.dropWhile pyIsSpace).reverse

/-- Characters admitted by the sanitize_label character class
[A-Za-z0-9._-] in test_wifi_upload_regression_serial.py. -/
def allowedChar (c : Char) : Bool :=
  decide (('A' ≤ c ∧ c ≤ 'Z') ∨ ('a' ≤ c ∧ c ≤ 'z') ∨ ('0' ≤ c ∧ c ≤ '9')
    ∨ c = '.' ∨ c = '_' ∨ c = '-')

/-- Embedding of re.sub(r"[^A-Za-z0-9._-]+", "-", s): every maximal run of
disallowed characters is replaced by a single dash. The flag records
whether the previous character belonged to a disallowed run. -/
def subBadRuns : Bool → List Char → List Char
  | _, [] => []
  | prevBad, c :: rest =>
    if allowedChar c then c :: subBadRuns false rest
    else if prevBad then subBadRuns true rest
    else '-' :: subBadRuns true rest

/-- Embedding of str.strip("-"): drop leading and trailing dashes. -/
def stripDashes (l : List Char) : List Char :=
  ((l.dropWhile (· = '-')).reverse.dropWhile (· = '-')).reverse

/-- Embedding of sanitize_label from test_wifi_upload_regression_serial.py:
strip whitespace, collapse disallowed runs to dashes, strip outer dashes,
fall back to "regression" when nothing survives, truncate to 48 characters. -/
def sanitize_label (value : List Char) : List Char :=
  let cleaned := stripDashes (subBadRuns false (pstrip value))
  if cleaned = [] then "regression".toList else cleaned.take 48

lemma mem_subBadRuns_allowed {c : Char} :
    ∀ (b : Bool) (l : List Char), c ∈ subBadRuns b l → allowedChar c = true := by
  intro b l
  induction l generalizing b with
  | nil => intro h; simp [subBadRuns] at h
  | cons a rest ih =>
    intro h
    by_cases ha : allowedChar a
    · simp [subBadRuns, ha] at h
      rcases h with h | h
      · exact h ▸ ha
      · exact ih false h
    · cases b with
      | true =>
        simp [subBadRuns, ha] at h
        exact ih true h
      | false =>
        simp [subBadRuns, ha] at h
        rcases h with h | h
        · subst h; decide
        · exact ih true h

lemma mem_stripDashes {c : Char} {l : List Char} (h : c ∈ stripDashes l) : c ∈ l := by
  unfold stripDashes at h
  have h1 := List.mem_reverse.mp h
  have h2 := (List.dropWhile_sublist (l := (l.dropWhile (· = '-')).reverse)
      (p := (· = '-'))).subset h1
  have h3 := List.mem_reverse.mp h2
  exact (List.dropWhile_sublist (l := l) (p := (· = '-'))).subset h3

/-- C9: for every input string, sanitize_label returns a non-empty string of
at most 48 characters drawn only from ASCII letters, digits, dot,
underscore and dash; when nothing survives cleaning (including the empty
input) it returns the fallback label "regression". The run-lock file name
and the log file name in main are both derived from this value. -/
theorem sanitize_label_invariant :
    (∀ value : List Char,
        sanitize_label value ≠ [] ∧
        (sanitize_label value).length ≤ 48 ∧
        ∀ c ∈ sanitize_label value, allowedChar c = true) ∧
    sanitize_label [] = "regression".toList ∧
    sanitize_label "   ".toList = "regression".toList ∧
    sanitize_label "!!!???".toList = "regression".toList ∧
    sanitize_label "an: example!".toList = "an-example".toList ∧
    sanitize_label (List.replicate 100 'a') = List.replicate 48 'a' := by
  refine ⟨?_, by decide, by decide, by decide, by decide, by decide⟩
  intro value
  have hval : sanitize_label value =
      if stripDashes (subBadRuns false (pstrip value)) = [] then "regression".toList
      else (stripDashes (subBadRuns false (pstrip value))).take 48 := rfl
  by_cases h : stripDashes (subBadRuns false (pstrip value)) = []
  · rw [hval, if_pos h]
    have hall : ∀ c ∈ "regression".toList, allowedChar c = true := by decide
    exact ⟨by decide, by decide, hall⟩
  · rw [hval, if_neg h]
    refine ⟨?_, ?_, ?_⟩
    · rcases hl : stripDashes (subBadRuns false (pstrip value)) with _ | ⟨a, l⟩
      · exact absurd hl h
      · simp [hl, List.take]
    · simp
    · intro c hc
      have hmem := List.take_subset 48 _ hc
      exact mem_subBadRuns_allowed false _ (mem_stripDashes hmem)

/-- Embedding of Python str.split("/") on a character list: groups between
slash separators, keeping empty groups (so splitting the empty string
yields one empty group, as in Python). -/
def splitSlash : List Char → List (List Char)
  | [] => [[]]
  | c :: rest =>
    if c = '/' then [] :: splitSlash rest
    else
      match splitSlash rest with
      | [] => [[c]]
      | g :: gs => (c :: g) :: gs

/-- Root normalisation step of remote_join in upload_assets_http.py:
prepend a slash when the root does not already start with one
(root if root.startswith("/") else "/" + root). -/
def ensureLeadingSlash (root : List Char) : List Char :=
  if root.head? = some '/' then root else '/' :: root

/-- Embedding of str.rstrip("/"): drop trailing slashes. -/
def rstripSlash (l : List Char) : List Char :=
  (l.reverse.dropWhile (· = '/')).reverse

/-- Embedding of posixpath.join restricted to two arguments, exactly the
CPython definition: an absolute second argument replaces the first; an
empty or slash-terminated first argument is concatenated directly;
otherwise a separator is inserted. -/
def posixJoin (a b : List Char) : List Char :=
  if b.head? = some '/' then b
  else if a = [] ∨ a.getLast? = some '/' then a ++ b
  else a ++ '/' :: b

/-- Embedding of remote_join from upload_assets_http.py: ensure a leading
slash on the root, strip trailing slashes, drop empty and "." components
of the relative path, fold the remaining components with posixpath.join,
and return "/" when everything cancelled out. -/
def remote_join (root : List Char) (rel : List Char) : List Char :=
  let root2 := rstripSlash (ensureLeadingSlash root)
  let parts := (splitSlash rel).filter (fun p => p ≠ [] ∧ p ≠ ['.'])
  let path := parts.foldl posixJoin root2
  if path = [] then ['/'] else path

lemma splitSlash_no_slash : ∀ (l : List Char), ∀ g ∈ splitSlash l, '/' ∉ g := by
  intro l
  induction l with
  | nil => intro g hg; simp [splitSlash] at hg; simp [hg]
  | cons c rest ih =>
    intro g hg
    by_cases hc : c = '/'
    · simp [splitSlash, hc] at hg
      rcases hg with hg | hg
      · simp [hg]
      · exact ih g hg
    · simp only [splitSlash, if_neg hc] at hg
      rcases hrec : splitSlash rest with _ | ⟨g0, gs⟩
      · rw [hrec] at hg
        simp at hg
        subst hg
        intro hmem
        rcases List.mem_cons.mp hmem with heq | h0
        · exact hc heq.symm
        · simp at h0
      · rw [hrec] at hg
        simp at hg
        rcases hg with hg | hg
        · subst hg
          intro hmem
          rcases List.mem_cons.mp hmem with heq | hmem2
          · exact hc heq.symm
          · exact ih g0 (by rw [hrec]; exact List.mem_cons_self g0 gs) hmem2
        · exact ih g (by rw [hrec]; exact List.mem_cons_of_mem g0 hg)

lemma posixJoin_head {a b : List Char} (ha : a ≠ []) (hb : '/' ∉ b) :
    (posixJoin a b).head? = a.head? ∧ posixJoin a b ≠ [] := by
  have hbhead : b.head? ≠ some '/' := by
    rcases b with _ | ⟨x, xs⟩
    · simp
    · simp only [List.head?]
      intro hx
      apply hb
      simp at hx
      simp [hx]
  unfold posixJoin
  rw [if_neg hbhead]
  by_cases h2 : a = [] ∨ a.getLast? = some '/'
  · rw [if_pos h2]
    rcases a with _ | ⟨y, ys⟩
    · exact absurd rfl ha
    · simp
  · rw [if_neg h2]
    rcases a with _ | ⟨y, ys⟩
    · exact absurd rfl ha
    · simp

lemma foldl_posixJoin_head {parts : List (List Char)}
    (hparts : ∀ g ∈ parts, '/' ∉ g) :
    ∀ (acc : List Char), acc ≠ [] →
      ((parts.foldl posixJoin acc).head? = acc.head? ∧ parts.foldl posixJoin acc ≠ []) := by
  induction parts with
  | nil => intro acc hacc; exact ⟨rfl, hacc⟩
  | cons p ps ih =>
    intro acc hacc
    have hp : '/' ∉ p := hparts p (List.mem_cons_self p ps)
    have hstep := posixJoin_head hacc hp
    have hrest := ih (fun g hg => hparts g (List.mem_cons_of_mem p hg))
      (posixJoin acc p) hstep.2
    simp only [List.foldl_cons]
    exact ⟨hrest.1.trans hstep.1, hrest.2⟩

/-- C10 counterexample: remote_join is not always absolute. With root "/"
(which root.rstrip("/") turns into the empty string) and relative path
"a", posixpath.join("", "a") = "a", so the result lacks the leading
slash claimed for every input. -/
theorem remote_join_slash_root_counterexample :
    remote_join ['/'] ['a'] = ['a'] ∧ (remote_join ['/'] ['a']).head? ≠ some '/' := by
  constructor
  · rfl
  · decide

lemma mem_dropWhile_of_neg {p : Char → Bool} {d : Char} (hd : p d = false) :
    ∀ l : List Char, d ∈ l → d ∈ l.dropWhile p := by
  intro l
  induction l with
  | nil => intro h; simp at h
  | cons x xs ih =>
    intro h
    by_cases hx : p x
    · rw [List.dropWhile_cons_of_pos hx]
      rcases h with _ | h
      · rw [hx] at hd; exact absurd hd (by simp)
      · exact ih (by assumption)
    · rw [List.dropWhile_cons_of_neg (by simpa using hx)]
      exact h

lemma rstripSlash_front (l : List Char) : rstripSlash l <+: l := by
  have hsuf : l.reverse.dropWhile (· = '/') <:+ l.reverse :=
    List.dropWhile_suffix _
  have := List.reverse_prefix.mpr hsuf
  simpa [rstripSlash] using this

lemma rstripSlash_keeps {l : List Char} {d : Char} (hd : d ≠ '/') (hmem : d ∈ l) :
    d ∈ rstripSlash l := by
  unfold rstripSlash
  rw [List.mem_reverse]
  exact mem_dropWhile_of_neg (by simpa using hd) _ (List.mem_reverse.mpr hmem)

lemma head?_of_front {l₁ l₂ : List Char} (h : l₁ <+: l₂) (hne : l₁ ≠ []) :
    l₁.head? = l₂.head? := by
  obtain ⟨t, ht⟩ := h
  subst ht
  rcases l₁ with _ | ⟨x, xs⟩
  · exact absurd rfl hne
  · rfl

/-- C10 amended: for every root containing at least one non-slash character
(so that stripping trailing slashes cannot empty it), remote_join returns
an absolute POSIX path starting with a slash: a missing leading slash on
the root is added, trailing slashes are stripped, and empty and "."
components of the relative path are removed before joining. Roots made
entirely of slashes (or empty) are the exception refuted above. -/
theorem remote_join_absolute :
    (∀ root rel : List Char, (∃ c ∈ root, c ≠ '/') →
        (remote_join root rel).head? = some '/') ∧
    remote_join "assets".toList "a/./b//c".toList = "/assets/a/b/c".toList ∧
    remote_join "/assets/".toList "u.bin".toList = "/assets/u.bin".toList ∧
    remote_join ['/'] [] = ['/'] := by
  refine ⟨?_, by decide, by decide, by decide⟩
  intro root rel hroot
  obtain ⟨c, hc, hcne⟩ := hroot
  have hmem : c ∈ ensureLeadingSlash root := by
    unfold ensureLeadingSlash
    by_cases h : root.head? = some '/'
    · rw [if_pos h]; exact hc
    · rw [if_neg h]; exact List.mem_cons_of_mem _ hc
  have hne : rstripSlash (ensureLeadingSlash root) ≠ [] := by
    intro hempty
    have := rstripSlash_keeps hcne hmem
    rw [hempty] at this
    simp at this
  have hstart : (ensureLeadingSlash root).head? = some '/' := by
    unfold ensureLeadingSlash
    by_cases h : root.head? = some '/'
    · rw [if_pos h]; exact h
    · rw [if_neg h]; rfl
  have hroot2 : (rstripSlash (ensureLeadingSlash root)).head? = some '/' :=
    (head?_of_front (rstripSlash_front _) hne).trans hstart
  have hparts : ∀ g ∈ (splitSlash rel).filter (fun p => p ≠ [] ∧ p ≠ ['.']), '/' ∉ g := by
    intro g hg
    exact splitSlash_no_slash rel g (List.mem_of_mem_filter hg)
  have hfold := foldl_posixJoin_head hparts (rstripSlash (ensureLeadingSlash root)) hne
  show (if ((splitSlash rel).filter fun p => p ≠ [] ∧ p ≠ ['.']).foldl posixJoin
        (rstripSlash (ensureLeadingSlash root)) = [] then ['/']
      else ((splitSlash rel).filter fun p => p ≠ [] ∧ p ≠ ['.']).foldl posixJoin
        (rstripSlash (ensureLeadingSlash root))).head? = some '/'
  rw [if_neg hfold.2]
  exact hfold.1.trans hroot2

/-- Embedding of chunk.replace(b"\r", b"\n") in SerialConsole._read_lines:
every carriage return byte becomes a newline before buffering. -/
def replaceCRLF (l : List Char) : List Char :=
  l.map (fun c => if c = '\r' then '\n' else c)

/-- Embedding of the find-newline/delete loop of SerialConsole._read_lines:
split the receive buffer into the raw segments that precede each newline
(in order) and the remainder after the last newline, which stays buffered. -/
def splitComplete : List Char → List (List Char) × List Char
  | [] => ([], [])
  | c :: rest =>
    if c = '\n' then
      let r := splitComplete rest
      ([] :: r.1, r.2)
    else
      let r := splitComplete rest
      match r.1 with
      | [] => ([], c :: r.2)
      | g :: gs => ((c :: g) :: gs, r.2)

/-- Embedding of SerialConsole._read_lines for one successful os.read: the
receive buffer rx is extended with the CR-normalised chunk, complete raw
segments are cut at newlines (empty segments are skipped, the rest are
decoded and stripped, and lines that strip to nothing are skipped), and
the remainder stays in the receive buffer for the next call. -/
def read_lines (rx : List Char) (chunk : List Char) :
    List (List Char) × List Char :=
  let buf := rx ++ replaceCRLF chunk
  let r := splitComplete buf
  (((r.1.filter (· ≠ [])).map pstrip).filter (· ≠ []), r.2)

lemma splitComplete_rest_no_newline :
    ∀ l : List Char, '\n' ∉ (splitComplete l).2 := by
  intro l
  induction l with
  | nil => simp [splitComplete]
  | cons c rest ih =>
    by_cases hc : c = '\n'
    · simp only [splitComplete, if_pos hc]
      exact ih
    · simp only [splitComplete, if_neg hc]
      rcases hr : (splitComplete rest).1 with _ | ⟨g, gs⟩
      · intro hmem
        rcases List.mem_cons.mp hmem with heq | h0
        · exact hc heq.symm
        · exact ih h0
      · exact ih

lemma splitComplete_no_newline {l : List Char} (h : '\n' ∉ l) :
    splitComplete l = ([], l) := by
  induction l with
  | nil => rfl
  | cons c rest ih =>
    have hc : c ≠ '\n' := fun hceq => h (hceq ▸ List.mem_cons_self c rest)
    have hrest : '\n' ∉ rest := fun hmem => h (List.mem_cons_of_mem c hmem)
    simp only [splitComplete, if_neg hc, ih hrest]

lemma replaceCRLF_id : ∀ (chunk : List Char), '\r' ∉ chunk → replaceCRLF chunk = chunk := by
  intro chunk
  induction chunk with
  | nil => intro _; rfl
  | cons c rest ih =>
    intro hcr
    have hc : c ≠ '\r' := fun h => hcr (h ▸ List.mem_cons_self c rest)
    have hrest : '\r' ∉ rest := fun h => hcr (List.mem_cons_of_mem c h)
    show (if c = '\r' then '\n' else c) :: replaceCRLF rest = c :: rest
    rw [if_neg hc, ih hrest]

/-- C3: the serial line reader never drops a partial line across calls.
Bytes received without a line terminator remain buffered (and the buffer
held across calls never contains a terminator), they are joined with
bytes from later calls — feeding "AB" then "C\n" yields exactly the one
line "ABC" — carriage returns act as line separators, and lines that are
empty after stripping are discarded. -/
theorem read_lines_partial_buffering :
    (∀ rx chunk : List Char, '\n' ∉ (read_lines rx chunk).2) ∧
    (∀ rx chunk : List Char, '\n' ∉ rx → '\n' ∉ chunk → '\r' ∉ chunk →
        read_lines rx chunk = ([], rx ++ chunk)) ∧
    read_lines [] "AB".toList = ([], "AB".toList) ∧
    read_lines "AB".toList "C\n".toList = (["ABC".toList], []) ∧
    read_lines [] "X\rY\n".toList = ([['X'], ['Y']], []) ∧
    read_lines [] "A\n\n  \nB\n".toList = ([['A'], ['B']], []) := by
  refine ⟨?_, ?_, by decide, by decide, by decide, by decide⟩
  · intro rx chunk
    exact splitComplete_rest_no_newline (rx ++ replaceCRLF chunk)
  · intro rx chunk hrx hlf hcr
    have hchunk := replaceCRLF_id chunk hcr
    have hbuf : '\n' ∉ rx ++ chunk := by
      intro hmem
      rcases List.mem_append.mp hmem with h | h
      · exact hrx h
      · exact hlf h
    simp only [read_lines, hchunk, splitComplete_no_newline hbuf]
    simp

/-- Prefix test on character lists (needle against the front of the hay),
used to embed the Python substring operator. -/
def leadsWith : List Char → List Char → Bool
  | [], _ => true
  | _ :: _, [] => false
  | a :: as, b :: bs => a == b && leadsWith as bs

/-- Embedding of the Python substring operator (needle in hay). -/
def hasSeq (needle : List Char) : List Char → Bool
  | [] => needle.isEmpty
  | c :: rest => leadsWith needle (c :: rest) || hasSeq needle rest

/-- Test of wait_mode_ack for a success reply: the Python expression
f"tag OK" in line. -/
def okLine (tag line : List Char) : Bool :=
  hasSeq (tag ++ " OK".toList) line

/-- Test of wait_mode_ack for an error reply: f"tag ERR" in line. -/
def errLine (tag line : List Char) : Bool :=
  hasSeq (tag ++ " ERR".toList) line

/-- Test of wait_mode_ack for a transient error reason:
"reason=timeout" in line. -/
def timeoutLine (line : List Char) : Bool :=
  hasSeq "reason=timeout".toList line

/-- A reply line on which wait_mode_ack keeps retrying instead of
returning: not a success and not a fatal error (an ERR is fatal exactly
when its reason is not a timeout). -/
def retryLine (tag line : List Char) : Bool :=
  !okLine tag line && (!errLine tag line || timeoutLine line)

/-- Embedding of wait_mode_ack from test_wifi_upload_regression_serial.py.
The list holds one entry per attempt of the for-loop over the attempt
budget: the reply line matched by command_wait within that attempt's 4 s
window, or none when no line matched. The returned pair is the boolean
result together with the trace of 1 s (1000 ms) backoff sleeps performed
(a sleep follows a timeout-ERR reply and a BUSY or unrecognised reply,
but not a windowed no-match, which retries immediately). -/
def wait_mode_ack (tag : List Char) : List (Option (List Char)) → Bool × List Nat
  | [] => (false, [])
  | none :: rest => wait_mode_ack tag rest
  | some line :: rest =>
    if okLine tag line then (true, [])
    else if errLine tag line then
      if timeoutLine line then
        ((wait_mode_ack tag rest).1, 1000 :: (wait_mode_ack tag rest).2)
      else (false, [])
    else ((wait_mode_ack tag rest).1, 1000 :: (wait_mode_ack tag rest).2)

lemma wait_mode_ack_true_iff (tag : List Char) :
    ∀ replies : List (Option (List Char)),
      ((wait_mode_ack tag replies).1 = true ↔
        ∃ pre line post, replies = pre ++ some line :: post ∧
          okLine tag line = true ∧
          ∀ m, some m ∈ pre → retryLine tag m = true) := by
  intro replies
  induction replies with
  | nil =>
    constructor
    · intro h
      simp [wait_mode_ack] at h
    · rintro ⟨pre, l, post, h, -, -⟩
      exact absurd h.symm (by simp)
  | cons r rest ih =>
    rcases r with _ | line
    · rw [show wait_mode_ack tag (none :: rest) = wait_mode_ack tag rest from rfl]
      rw [ih]
      constructor
      · rintro ⟨pre, l, post, hdec, hok, hpre⟩
        refine ⟨none :: pre, l, post, by rw [hdec]; rfl, hok, ?_⟩
        intro m hm
        rcases List.mem_cons.mp hm with heq | hm2
        · exact absurd heq (by simp)
        · exact hpre m hm2
      · rintro ⟨pre, l, post, hdec, hok, hpre⟩
        rcases pre with _ | ⟨p, pre2⟩
        · exact absurd (List.head_eq_of_cons_eq hdec).symm (by simp)
        · refine ⟨pre2, l, post, List.tail_eq_of_cons_eq hdec, hok, ?_⟩
          intro m hm
          exact hpre m (List.mem_cons_of_mem p hm)
    · by_cases hok : okLine tag line
      · constructor
        · intro _
          exact ⟨[], line, rest, rfl, hok, by intro m hm; simp at hm⟩
        · intro _
          simp [wait_mode_ack, hok]
      · by_cases hretry : retryLine tag line = true
        · have hstep : (wait_mode_ack tag (some line :: rest)).1 =
              (wait_mode_ack tag rest).1 := by
            have hnotok : okLine tag line = false := by
              simpa using hok
            unfold retryLine at hretry
            rw [hnotok] at hretry
            simp at hretry
            by_cases herr : errLine tag line
            · have htime : timeoutLine line = true := by
                rcases hretry with h | h
                · rw [herr] at h; simp at h
                · exact h
              simp [wait_mode_ack, hnotok, herr, htime]
            · simp [wait_mode_ack, hnotok, herr]
          rw [hstep, ih]
          constructor
          · rintro ⟨pre, l, post, hdec, hokl, hpre⟩
            refine ⟨some line :: pre, l, post, by rw [hdec]; rfl, hokl, ?_⟩
            intro m hm
            rcases List.mem_cons.mp hm with heq | hm2
            · have : m = line := by
                injection heq
              exact this ▸ hretry
            · exact hpre m hm2
          · rintro ⟨pre, l, post, hdec, hokl, hpre⟩
            rcases pre with _ | ⟨p, pre2⟩
            · have : line = l := by
                have := List.head_eq_of_cons_eq hdec
                injection this
              exact absurd (this ▸ hokl) (by simpa using hok)
            · refine ⟨pre2, l, post, List.tail_eq_of_cons_eq hdec, hokl, ?_⟩
              intro m hm
              exact hpre m (List.mem_cons_of_mem p hm)
        · -- fatal error reply: returns false immediately
          have hnotok : okLine tag line = false := by simpa using hok
          have herr : errLine tag line = true ∧ timeoutLine line = false := by
            unfold retryLine at hretry
            rw [hnotok] at hretry
            simp at hretry
            exact hretry
          have hres : (wait_mode_ack tag (some line :: rest)).1 = false := by
            simp [wait_mode_ack, hnotok, herr.1, herr.2]
          rw [hres]
          constructor
          · intro h; simp at h
          · rintro ⟨pre, l, post, hdec, hokl, hpre⟩
            rcases pre with _ | ⟨p, pre2⟩
            · have : line = l := by
                have := List.head_eq_of_cons_eq hdec
                injection this
              exact absurd (this ▸ hokl) (by simpa using hok)
            · have hp : p = some line := (List.head_eq_of_cons_eq hdec).symm
              have := hpre line (by rw [← hp]; exact List.mem_cons_self p pre2)
              exact absurd this (by simpa using hretry)

/-- C4: for every command tag and attempt budget, wait_mode_ack returns
true iff a reply line containing "tag OK" is observed among the attempts
it actually makes (every earlier consumed reply being retryable); a
"tag ERR" reply with reason=timeout is never fatal and is retried after a
1 s backoff, any other "tag ERR" reply makes it return false immediately,
and BUSY replies or attempts with no match are retried until the attempt
budget is exhausted, after which it returns false. -/
theorem wait_mode_ack_ok_iff :
    (∀ tag : List Char, ∀ replies : List (Option (List Char)),
        (wait_mode_ack tag replies).1 = true ↔
          ∃ pre line post, replies = pre ++ some line :: post ∧
            okLine tag line = true ∧
            ∀ m, some m ∈ pre → retryLine tag m = true) ∧
    wait_mode_ack "MODE".toList
        [some "MODE ERR reason=timeout".toList, some "MODE OK".toList] =
      (true, [1000]) ∧
    wait_mode_ack "MODE".toList
        [some "MODE ERR reason=sd".toList, some "MODE OK".toList] =
      (false, []) ∧
    wait_mode_ack "MODE".toList
        (List.replicate 20 (some "MODE BUSY".toList)) =
      (false, List.replicate 20 1000) ∧
    wait_mode_ack "MODE".toList [none, some "MODE OK".toList] = (true, []) ∧
    wait_mode_ack "MODE".toList (List.replicate 20 none) = (false, []) := by
  exact ⟨wait_mode_ack_true_iff, by decide, by decide, by decide, by decide, by decide⟩

/-- One METRICSNET sample as parsed by query_metrics_net:
wifi_connected flag, http_listening flag and the reported dotted-quad IP. -/
structure NetSample where
  wifiConnected : Bool
  httpListening : Bool
  ip : String
deriving DecidableEq

/-- Result of wait_network_ready: the ready tuple
(connect_ms, listen_ms, ip), or one of its two timeout errors. -/
inductive NetReady
  | ready (connectMs listenMs : Nat) (ip : String)
  | connectTimeout
  | listenTimeout
deriving DecidableEq

/-- Embedding of the statement
"if wifi_connected and connect_ms == 0: connect_ms = now_ms". -/
def updateConnectMs (s : NetSample) (cms nms : Nat) : Nat :=
  if s.wifiConnected = true ∧ cms = 0 then nms else cms

/-- Embedding of the ready-streak update: the streak grows only while the
same IP repeats, otherwise it restarts at 1 for the new IP. -/
def nextStreak (s : NetSample) (streak : Nat) (rip : String) : Nat :=
  if s.ip = rip then streak + 1 else 1

/-- Embedding of the return-time fixup
"if connect_ms == 0: connect_ms = now_ms". -/
def finalConnectMs (cms nms : Nat) : Nat :=
  if cms = 0 then nms else cms

/-- Embedding of the polling loop of wait_network_ready from
test_wifi_upload_regression_serial.py. One list entry per poll of the
1 s-cadence loop (none when query_metrics_net returned nothing; a None
poll neither resets the streak nor runs the connect-deadline check,
exactly as the continue in the source skips both). nowMs gives the
millisecond reading taken at poll i, connectExpired the result of the
connect-deadline comparison at poll i; the listen deadline is reached
when the sample list is exhausted. -/
def waitNetworkReadyGo (nowMs : Nat → Nat) (connectExpired : Nat → Bool) :
    List (Option NetSample) → Nat → Nat → Nat → String → NetReady
  | [], _, _, _, _ => .listenTimeout
  | none :: rest, i, cms, streak, rip =>
    waitNetworkReadyGo nowMs connectExpired rest (i + 1) cms streak rip
  | some s :: rest, i, cms, streak, rip =>
    if s.httpListening = true ∧ s.ip ≠ "0.0.0.0" then
      if 2 ≤ nextStreak s streak rip then
        .ready (finalConnectMs (updateConnectMs s cms (nowMs i)) (nowMs i)) (nowMs i) s.ip
      else if updateConnectMs s cms (nowMs i) = 0 ∧ connectExpired i = true then
        .connectTimeout
      else
        waitNetworkReadyGo nowMs connectExpired rest (i + 1)
          (updateConnectMs s cms (nowMs i)) (nextStreak s streak rip) s.ip
    else
      if updateConnectMs s cms (nowMs i) = 0 ∧ connectExpired i = true then
        .connectTimeout
      else
        waitNetworkReadyGo nowMs connectExpired rest (i + 1)
          (updateConnectMs s cms (nowMs i)) 0 ""

/-- Embedding of wait_network_ready: the loop starts at poll 0 with
connect_ms = 0, ready_streak = 0 and ready_ip = "". -/
def wait_network_ready (nowMs : Nat → Nat) (connectExpired : Nat → Bool)
    (samples : List (Option NetSample)) : NetReady :=
  waitNetworkReadyGo nowMs connectExpired samples 0 0 0 ""

/-- Embedding of the throughput computation of the regression cycle:
kib_s = (payload_bytes / 1024.0) / max(0.001, upload_ms / 1000.0),
over exact rationals. -/
def throughput_kib_s (payloadBytes uploadMs : Nat) : ℚ :=
  ((payloadBytes : ℚ) / 1024) / max (1 / 1000 : ℚ) ((uploadMs : ℚ) / 1000)

lemma waitNetworkReadyGo_ready_decomp (nowMs : Nat → Nat) (ce : Nat → Bool) :
    ∀ (samples : List (Option NetSample)) (i cms streak : Nat) (rip : String)
      (c l : Nat) (ip : String),
      waitNetworkReadyGo nowMs ce samples i cms streak rip = .ready c l ip →
      (∃ front gap tail s1 s2,
          samples = front ++ some s1 :: (gap ++ some s2 :: tail) ∧
          (∀ x ∈ gap, x = none) ∧
          s1.httpListening = true ∧ s2.httpListening = true ∧
          s1.ip = ip ∧ s2.ip = ip ∧ ip ≠ "0.0.0.0") ∨
      (1 ≤ streak ∧ rip = ip ∧
        ∃ gap tail s2, samples = gap ++ some s2 :: tail ∧
          (∀ x ∈ gap, x = none) ∧
          s2.httpListening = true ∧ s2.ip = ip ∧ ip ≠ "0.0.0.0") := by
  intro samples
  induction samples with
  | nil =>
    intro i cms streak rip c l ip h
    exact NetReady.noConfusion h
  | cons r rest ih =>
    intro i cms streak rip c l ip h
    rcases r with _ | s
    · rcases ih (i + 1) cms streak rip c l ip h with hleft | hright
      · obtain ⟨front, gap, tail, s1, s2, hdec, hgap, h1, h2, h3, h4, h5⟩ := hleft
        exact Or.inl ⟨none :: front, gap, tail, s1, s2, by rw [hdec]; rfl,
          hgap, h1, h2, h3, h4, h5⟩
      · obtain ⟨hstreak, hrip, gap, tail, s2, hdec, hgap, h1, h2, h3⟩ := hright
        refine Or.inr ⟨hstreak, hrip, none :: gap, tail, s2, by rw [hdec]; rfl, ?_, h1, h2, h3⟩
        intro x hx
        rcases List.mem_cons.mp hx with heq | hx2
        · exact heq
        · exact hgap x hx2
    · by_cases hlis : s.httpListening = true ∧ s.ip ≠ "0.0.0.0"
      · rw [show waitNetworkReadyGo nowMs ce (some s :: rest) i cms streak rip =
            (if 2 ≤ nextStreak s streak rip then
              NetReady.ready (finalConnectMs (updateConnectMs s cms (nowMs i)) (nowMs i))
                (nowMs i) s.ip
            else if updateConnectMs s cms (nowMs i) = 0 ∧ ce i = true then
              NetReady.connectTimeout
            else
              waitNetworkReadyGo nowMs ce rest (i + 1)
                (updateConnectMs s cms (nowMs i)) (nextStreak s streak rip) s.ip)
            from by rw [waitNetworkReadyGo, if_pos hlis]] at h
        by_cases hstreak2 : 2 ≤ nextStreak s streak rip
        · rw [if_pos hstreak2] at h
          have hip : s.ip = ip := by
            injection h
          have hsame : s.ip = rip ∧ 1 ≤ streak := by
            unfold nextStreak at hstreak2
            by_cases hip2 : s.ip = rip
            · rw [if_pos hip2] at hstreak2
              exact ⟨hip2, by omega⟩
            · rw [if_neg hip2] at hstreak2
              omega
          exact Or.inr ⟨hsame.2, hsame.1 ▸ hip, [], rest, s, rfl,
            by intro x hx; simp at hx, hlis.1, hip, hip ▸ hlis.2⟩
        · rw [if_neg hstreak2] at h
          by_cases hct : updateConnectMs s cms (nowMs i) = 0 ∧ ce i = true
          · rw [if_pos hct] at h
            exact NetReady.noConfusion h
          · rw [if_neg hct] at h
            rcases ih (i + 1) (updateConnectMs s cms (nowMs i))
                (nextStreak s streak rip) s.ip c l ip h with hleft | hright
            · obtain ⟨front, gap, tail, s1, s2, hdec, hgap, h1, h2, h3, h4, h5⟩ := hleft
              exact Or.inl ⟨some s :: front, gap, tail, s1, s2, by rw [hdec]; rfl,
                hgap, h1, h2, h3, h4, h5⟩
            · obtain ⟨-, hrip, gap, tail, s2, hdec, hgap, h1, h2, h3⟩ := hright
              exact Or.inl ⟨[], gap, tail, s, s2, by rw [hdec]; rfl, hgap,
                hlis.1, h1, hrip, h2, h3⟩
      · rw [show waitNetworkReadyGo nowMs ce (some s :: rest) i cms streak rip =
            (if updateConnectMs s cms (nowMs i) = 0 ∧ ce i = true then
              NetReady.connectTimeout
            else
              waitNetworkReadyGo nowMs ce rest (i + 1)
                (updateConnectMs s cms (nowMs i)) 0 "")
            from by rw [waitNetworkReadyGo, if_neg hlis]] at h
        by_cases hct : updateConnectMs s cms (nowMs i) = 0 ∧ ce i = true
        · rw [if_pos hct] at h
          exact NetReady.noConfusion h
        · rw [if_neg hct] at h
          rcases ih (i + 1) (updateConnectMs s cms (nowMs i)) 0 "" c l ip h with hleft | hright
          · obtain ⟨front, gap, tail, s1, s2, hdec, hgap, h1, h2, h3, h4, h5⟩ := hleft
            exact Or.inl ⟨some s :: front, gap, tail, s1, s2, by rw [hdec]; rfl,
              hgap, h1, h2, h3, h4, h5⟩
          · exact absurd hright.1 (by omega)

/-- C2: wait_network_ready declares readiness only after the HTTP listener
has been reported up with the same non-zero IP in two consecutive
successful metric polls (polls where the device produced no parsable
metrics line neither advance nor reset the streak, matching the continue
branch of the source); in particular, a single listening-with-IP sample
followed by a sample with a different IP does not trigger readiness. -/
theorem wait_network_ready_debounce :
    (∀ (nowMs : Nat → Nat) (ce : Nat → Bool) (samples : List (Option NetSample))
        (c l : Nat) (ip : String),
        wait_network_ready nowMs ce samples = .ready c l ip →
        ∃ front gap tail s1 s2,
          samples = front ++ some s1 :: (gap ++ some s2 :: tail) ∧
          (∀ x ∈ gap, x = none) ∧
          s1.httpListening = true ∧ s2.httpListening = true ∧
          s1.ip = ip ∧ s2.ip = ip ∧ ip ≠ "0.0.0.0") ∧
    wait_network_ready (fun i => i * 1000) (fun _ => false)
        [some ⟨true, true, "10.0.0.5"⟩, some ⟨true, true, "10.0.0.6"⟩] =
      .listenTimeout ∧
    wait_network_ready (fun i => i * 1000) (fun _ => false)
        [some ⟨true, true, "10.0.0.5"⟩, some ⟨true, true, "10.0.0.5"⟩] =
      .ready 1000 1000 "10.0.0.5" := by
  refine ⟨?_, by decide, by decide⟩
  intro nowMs ce samples c l ip h
  rcases waitNetworkReadyGo_ready_decomp nowMs ce samples 0 0 0 "" c l ip h with hleft | hright
  · exact hleft
  · exact absurd hright.1 (by omega)

lemma waitNetworkReadyGo_connect_le (nowMs : Nat → Nat) (hmono : Monotone nowMs)
    (ce : Nat → Bool) :
    ∀ (samples : List (Option NetSample)) (i cms streak : Nat) (rip : String)
      (c l : Nat) (ip : String),
      cms ≤ nowMs i →
      waitNetworkReadyGo nowMs ce samples i cms streak rip = .ready c l ip →
      c ≤ l := by
  intro samples
  induction samples with
  | nil =>
    intro i cms streak rip c l ip _ h
    exact NetReady.noConfusion h
  | cons r rest ih =>
    intro i cms streak rip c l ip hcms h
    have hstep : nowMs i ≤ nowMs (i + 1) := hmono (Nat.le_succ i)
    rcases r with _ | s
    · exact ih (i + 1) cms streak rip c l ip (hcms.trans hstep) h
    · have hupd : updateConnectMs s cms (nowMs i) ≤ nowMs i := by
        unfold updateConnectMs
        by_cases hw : s.wifiConnected = true ∧ cms = 0
        · rw [if_pos hw]
        · rw [if_neg hw]; exact hcms
      by_cases hlis : s.httpListening = true ∧ s.ip ≠ "0.0.0.0"
      · rw [show waitNetworkReadyGo nowMs ce (some s :: rest) i cms streak rip =
            (if 2 ≤ nextStreak s streak rip then
              NetReady.ready (finalConnectMs (updateConnectMs s cms (nowMs i)) (nowMs i))
                (nowMs i) s.ip
            else if updateConnectMs s cms (nowMs i) = 0 ∧ ce i = true then
              NetReady.connectTimeout
            else
              waitNetworkReadyGo nowMs ce rest (i + 1)
                (updateConnectMs s cms (nowMs i)) (nextStreak s streak rip) s.ip)
            from by rw [waitNetworkReadyGo, if_pos hlis]] at h
        by_cases hstreak2 : 2 ≤ nextStreak s streak rip
        · rw [if_pos hstreak2] at h
          have hc : finalConnectMs (updateConnectMs s cms (nowMs i)) (nowMs i) = c := by
            injection h
          have hl : nowMs i = l := by
            injection h
          rw [← hc, ← hl]
          unfold finalConnectMs
          by_cases hz : updateConnectMs s cms (nowMs i) = 0
          · rw [if_pos hz]
          · rw [if_neg hz]; exact hupd
        · rw [if_neg hstreak2] at h
          by_cases hct : updateConnectMs s cms (nowMs i) = 0 ∧ ce i = true
          · rw [if_pos hct] at h
            exact NetReady.noConfusion h
          · rw [if_neg hct] at h
            exact ih (i + 1) (updateConnectMs s cms (nowMs i)) (nextStreak s streak rip)
              s.ip c l ip (hupd.trans hstep) h
      · rw [show waitNetworkReadyGo nowMs ce (some s :: rest) i cms streak rip =
            (if updateConnectMs s cms (nowMs i) = 0 ∧ ce i = true then
              NetReady.connectTimeout
            else
              waitNetworkReadyGo nowMs ce rest (i + 1)
                (updateConnectMs s cms (nowMs i)) 0 "")
            from by rw [waitNetworkReadyGo, if_neg hlis]] at h
        by_cases hct : updateConnectMs s cms (nowMs i) = 0 ∧ ce i = true
        · rw [if_pos hct] at h
          exact NetReady.noConfusion h
        · rw [if_neg hct] at h
          exact ih (i + 1) (updateConnectMs s cms (nowMs i)) 0 "" c l ip
            (hupd.trans hstep) h

/-- C6: for every cycle that completes successfully, the recorded
connect_ms is at most listen_ms (the connect timestamp is taken at an
earlier or equal poll of a monotone clock), and the reported throughput
equals payload_bytes/1024 divided by upload_ms/1000 exactly whenever
upload_ms is at least one millisecond (the max(0.001, _) clamp of the
source only engages at upload_ms = 0) and is positive for every positive
payload. -/
theorem cycle_stats_sound :
    (∀ nowMs : Nat → Nat, Monotone nowMs →
      ∀ (ce : Nat → Bool) (samples : List (Option NetSample)) (c l : Nat) (ip : String),
        wait_network_ready nowMs ce samples = .ready c l ip → c ≤ l) ∧
    (∀ payloadBytes uploadMs : Nat, 0 < payloadBytes →
        0 < throughput_kib_s payloadBytes uploadMs) ∧
    (∀ payloadBytes uploadMs : Nat, 1 ≤ uploadMs →
        throughput_kib_s payloadBytes uploadMs =
          ((payloadBytes : ℚ) / 1024) / ((uploadMs : ℚ) / 1000)) ∧
    throughput_kib_s 524288 2000 = 256 := by
  refine ⟨?_, ?_, ?_, ?_⟩
  · intro nowMs hmono ce samples c l ip h
    exact waitNetworkReadyGo_connect_le nowMs hmono ce samples 0 0 0 "" c l ip
      (Nat.zero_le _) h
  · intro payloadBytes uploadMs hp
    apply div_pos
    · apply div_pos
      · exact_mod_cast hp
      · norm_num
    · exact lt_of_lt_of_le (by norm_num) (le_max_left _ _)
  · intro payloadBytes uploadMs hu
    unfold throughput_kib_s
    rw [max_eq_right]
    rw [div_le_div_iff_of_pos_right (by norm_num : (0:ℚ) < 1000)]
    exact_mod_cast hu
  · unfold throughput_kib_s
    rw [max_eq_right (by norm_num)]
    norm_num

/-- HTTP actions performed by one iteration of request_sd_busy_aware when
the server answers 409 sd busy: the wrapped request itself, then the
best-effort POST /upload_abort. -/
inductive SdAct
  | tryReq
  | abortReq
deriving DecidableEq

/-- Result of the request_sd_busy_aware loop against an always-busy
server: the raise re-throwing the busy error (carrying the attempt
counter and the clock value at that iteration), or the raise after the
10 000-iteration cap. -/
inductive SdBusyResult
  | raisedBusy (attempt now : Nat)
  | persisted
deriving DecidableEq

/-- Embedding of request_sd_busy_aware from upload_assets_http.py for a
server that answers every wrapped request with 409 Conflict / sd busy.
attempts is max(1, busy_retries); deadline is the monotonic millisecond
deadline time + max(1.0, UPLOAD_SD_BUSY_TOTAL_RETRY_S); the fuel argument
is the range(10_000) iteration cap. Each iteration reads the clock (now),
computes can_retry = (attempt + 1 < attempts) or (now < deadline), issues
the request (busy), issues the best-effort abort, and either re-raises
(when can_retry is false) or sleeps 0.25*(attempt+1) s — so the clock
advances by at least 250*(attempt+1) ms, plus an arbitrary extra delay
for the request round-trips — and retries. -/
def sdBusyAwareAlwaysBusy (attempts deadline : Nat) (extra : Nat → Nat) :
    Nat → Nat → Nat → SdBusyResult × List SdAct
  | 0, _, _ => (.persisted, [])
  | fuel + 1, attempt, now =>
    if attempt + 1 < attempts ∨ now < deadline then
      let r := sdBusyAwareAlwaysBusy attempts deadline extra fuel (attempt + 1)
        (now + 250 * (attempt + 1) + extra attempt)
      (r.1, .tryReq :: .abortReq :: r.2)
    else (.raisedBusy attempt now, [.tryReq, .abortReq])

lemma sdBusyAwareAlwaysBusy_raise_needs_both (attempts deadline : Nat) (extra : Nat → Nat) :
    ∀ (fuel attempt now a t : Nat),
      (sdBusyAwareAlwaysBusy attempts deadline extra fuel attempt now).1 = .raisedBusy a t →
      attempts ≤ a + 1 ∧ deadline ≤ t := by
  intro fuel
  induction fuel with
  | zero =>
    intro attempt now a t h
    exact SdBusyResult.noConfusion h
  | succ fuel ih =>
    intro attempt now a t h
    by_cases hc : attempt + 1 < attempts ∨ now < deadline
    · rw [show (sdBusyAwareAlwaysBusy attempts deadline extra (fuel + 1) attempt now).1 =
          (sdBusyAwareAlwaysBusy attempts deadline extra fuel (attempt + 1)
            (now + 250 * (attempt + 1) + extra attempt)).1
          from by rw [sdBusyAwareAlwaysBusy, if_pos hc]] at h
      exact ih (attempt + 1) (now + 250 * (attempt + 1) + extra attempt) a t h
    · rw [show (sdBusyAwareAlwaysBusy attempts deadline extra (fuel + 1) attempt now).1 =
          SdBusyResult.raisedBusy attempt now
          from by rw [sdBusyAwareAlwaysBusy, if_neg hc]] at h
      have ha : attempt = a := by injection h
      have ht : now = t := by injection h
      subst ha
      subst ht
      omega

lemma sdBusyAwareAlwaysBusy_terminates (attempts deadline : Nat) (extra : Nat → Nat) :
    ∀ (fuel attempt now : Nat),
      (attempts - (attempt + 1)) + (deadline - now) < fuel →
      ∃ a t, (sdBusyAwareAlwaysBusy attempts deadline extra fuel attempt now).1 =
          .raisedBusy a t ∧
        SdAct.abortReq ∈ (sdBusyAwareAlwaysBusy attempts deadline extra fuel attempt now).2 := by
  intro fuel
  induction fuel with
  | zero =>
    intro attempt now h
    omega
  | succ fuel ih =>
    intro attempt now h
    by_cases hc : attempt + 1 < attempts ∨ now < deadline
    · have hmeas : (attempts - (attempt + 1 + 1)) +
          (deadline - (now + 250 * (attempt + 1) + extra attempt)) < fuel := by
        omega
      obtain ⟨a, t, hres, hmem⟩ := ih (attempt + 1) (now + 250 * (attempt + 1) + extra attempt) hmeas
      refine ⟨a, t, ?_, ?_⟩
      · rw [show (sdBusyAwareAlwaysBusy attempts deadline extra (fuel + 1) attempt now).1 =
            (sdBusyAwareAlwaysBusy attempts deadline extra fuel (attempt + 1)
              (now + 250 * (attempt + 1) + extra attempt)).1
            from by rw [sdBusyAwareAlwaysBusy, if_pos hc]]
        exact hres
      · rw [show (sdBusyAwareAlwaysBusy attempts deadline extra (fuel + 1) attempt now).2 =
            SdAct.tryReq :: SdAct.abortReq :: (sdBusyAwareAlwaysBusy attempts deadline extra fuel
              (attempt + 1) (now + 250 * (attempt + 1) + extra attempt)).2
            from by rw [sdBusyAwareAlwaysBusy, if_pos hc]]
        exact List.mem_cons_of_mem _ (List.mem_cons_self _ _)
    · refine ⟨attempt, now, ?_, ?_⟩
      · rw [show (sdBusyAwareAlwaysBusy attempts deadline extra (fuel + 1) attempt now).1 =
            SdBusyResult.raisedBusy attempt now
            from by rw [sdBusyAwareAlwaysBusy, if_neg hc]]
      · rw [show (sdBusyAwareAlwaysBusy attempts deadline extra (fuel + 1) attempt now).2 =
            [SdAct.tryReq, SdAct.abortReq]
            from by rw [sdBusyAwareAlwaysBusy, if_neg hc]]
        exact List.mem_cons_of_mem _ (List.mem_cons_self _ _)

/-- C1: against a server that answers 409 sd busy on every attempt,
request_sd_busy_aware issues a best-effort POST /upload_abort on every
busy iteration, and terminates by re-raising the busy error rather than
hanging: with fuel exceeding the combined attempt and time budgets the
loop raises (first conjunct), every raise happens only once both the busy
attempt count and the wall-clock deadline are exhausted, so whichever
bound is reached last still permits one more try while the other remains
(second conjunct), one more iteration is taken whenever either bound
still has room (third conjunct), and under the default budgets
(busy_retries = 8, 180 000 ms) the loop raises at attempt 38 with
185 250 ms elapsed, well inside the range(10_000) cap (last conjunct). -/
theorem sd_busy_retry_bounded :
    (∀ (attempts deadline : Nat) (extra : Nat → Nat) (fuel attempt now : Nat),
        (attempts - (attempt + 1)) + (deadline - now) < fuel →
        ∃ a t, (sdBusyAwareAlwaysBusy attempts deadline extra fuel attempt now).1 =
            .raisedBusy a t ∧
          SdAct.abortReq ∈ (sdBusyAwareAlwaysBusy attempts deadline extra fuel attempt now).2) ∧
    (∀ (attempts deadline : Nat) (extra : Nat → Nat) (fuel attempt now a t : Nat),
        (sdBusyAwareAlwaysBusy attempts deadline extra fuel attempt now).1 = .raisedBusy a t →
        attempts ≤ a + 1 ∧ deadline ≤ t) ∧
    (∀ (attempts deadline : Nat) (extra : Nat → Nat) (fuel attempt now : Nat),
        attempt + 1 < attempts ∨ now < deadline →
        sdBusyAwareAlwaysBusy attempts deadline extra (fuel + 1) attempt now =
          ((sdBusyAwareAlwaysBusy attempts deadline extra fuel (attempt + 1)
              (now + 250 * (attempt + 1) + extra attempt)).1,
            SdAct.tryReq :: SdAct.abortReq ::
              (sdBusyAwareAlwaysBusy attempts deadline extra fuel (attempt + 1)
                (now + 250 * (attempt + 1) + extra attempt)).2)) ∧
    (sdBusyAwareAlwaysBusy 8 180000 (fun _ => 0) 10000 0 0).1 =
      .raisedBusy 38 185250 := by
  refine ⟨?_, ?_, ?_, ?_⟩
  · intro attempts deadline extra fuel attempt now h
    exact sdBusyAwareAlwaysBusy_terminates attempts deadline extra fuel attempt now h
  · intro attempts deadline extra fuel attempt now a t h
    exact sdBusyAwareAlwaysBusy_raise_needs_both attempts deadline extra fuel attempt now a t h
  · intro attempts deadline extra fuel attempt now hc
    rw [sdBusyAwareAlwaysBusy, if_pos hc]
  · decide

/-- HTTP operations issued by upload_file, in order: the single-shot
PUT /upload, POST /upload_abort, POST /upload_begin?size=n, the repeated
PUT /upload_chunk calls (each carrying one chunk of file bytes), and
POST /upload_commit. -/
inductive UpOp
  | putSingle (size : Nat)
  | abortPost
  | beginPost (size : Nat)
  | chunkPut (chunk : List Nat)
  | commitPost
deriving DecidableEq

/-- Embedding of the f.read(UPLOAD_CHUNK_SIZE) loop: cut the file bytes
into successive chunks of cs bytes (the final chunk may be shorter). The
fuel argument only serves termination; chunksOf supplies it. -/
def chunksGo (cs : Nat) : Nat → List Nat → List (List Nat)
  | 0, _ => []
  | _, [] => []
  | fuel + 1, b :: l => (b :: l).take cs :: chunksGo cs fuel ((b :: l).drop cs)

/-- The chunk sequence read sequentially from a file of the given bytes. -/
def chunksOf (cs : Nat) (content : List Nat) : List (List Nat) :=
  chunksGo cs content.length content

/-- Embedding of the chunk-upload loop of upload_file: one
request_sd_busy_aware PUT /upload_chunk per chunk, consuming one oracle
outcome (indexed by the running call counter) per call; a failing call
raises out of the loop. Returns the success flag, the call counter after
the loop, and the trace of chunk operations attempted. -/
def uploadChunksGo (env : Nat → Bool) : Nat → List (List Nat) → Bool × Nat × List UpOp
  | n, [] => (true, n, [])
  | n, c :: rest =>
    if env n then
      ((uploadChunksGo env (n + 1) rest).1, (uploadChunksGo env (n + 1) rest).2.1,
        UpOp.chunkPut c :: (uploadChunksGo env (n + 1) rest).2.2)
    else (false, n + 1, [UpOp.chunkPut c])

/-- Embedding of upload_file from upload_assets_http.py. Each HTTP call
site (after all of its internal connection / sd-busy retries) is one
oracle outcome env k, consumed in call order: call 0 is the single-shot
PUT /upload; on its failure call 1 is the best-effort POST /upload_abort
(outcome ignored), call 2 is POST /upload_begin (failure propagates with
no chunk-phase abort, as the begin call sits outside the try block),
calls 3.. are the PUT /upload_chunk loop and then POST /upload_commit;
a failure of a chunk or of the commit performs the best-effort
POST /upload_abort of the except block before re-raising. Returns the
success flag and the full operation trace. -/
def upload_file (env : Nat → Bool) (content : List Nat) (cs : Nat) :
    Bool × List UpOp :=
  if env 0 then (true, [UpOp.putSingle content.length])
  else if env 2 then
    if (uploadChunksGo env 3 (chunksOf cs content)).1 then
      if env (uploadChunksGo env 3 (chunksOf cs content)).2.1 then
        (true, UpOp.putSingle content.length :: UpOp.abortPost ::
          UpOp.beginPost content.length ::
          ((uploadChunksGo env 3 (chunksOf cs content)).2.2 ++ [UpOp.commitPost]))
      else
        (false, UpOp.putSingle content.length :: UpOp.abortPost ::
          UpOp.beginPost content.length ::
          ((uploadChunksGo env 3 (chunksOf cs content)).2.2 ++
            [UpOp.commitPost, UpOp.abortPost]))
    else
      (false, UpOp.putSingle content.length :: UpOp.abortPost ::
        UpOp.beginPost content.length ::
        ((uploadChunksGo env 3 (chunksOf cs content)).2.2 ++ [UpOp.abortPost]))
  else
    (false, [UpOp.putSingle content.length, UpOp.abortPost,
      UpOp.beginPost content.length])

lemma chunksGo_flatten (cs : Nat) (hcs : 0 < cs) :
    ∀ (fuel : Nat) (l : List Nat), l.length ≤ fuel →
      (chunksGo cs fuel l).flatten = l := by
  intro fuel
  induction fuel with
  | zero =>
    intro l hl
    rw [Nat.le_zero, List.length_eq_zero] at hl
    subst hl
    rfl
  | succ fuel ih =>
    intro l hl
    rcases l with _ | ⟨b, t⟩
    · rfl
    · rw [show chunksGo cs (fuel + 1) (b :: t) =
          (b :: t).take cs :: chunksGo cs fuel ((b :: t).drop cs) from rfl]
      rw [List.flatten_cons]
      have hdrop : ((b :: t).drop cs).length ≤ fuel := by
        rw [List.length_drop]
        simp only [List.length_cons] at hl ⊢
        omega
      rw [ih _ hdrop, List.take_append_drop]

lemma chunksGo_length_le (cs : Nat) (hcs : 0 < cs) :
    ∀ (fuel : Nat) (l : List Nat), ∀ c ∈ chunksGo cs fuel l, c.length ≤ cs ∧ c ≠ [] := by
  intro fuel
  induction fuel with
  | zero =>
    intro l c hc
    exact absurd hc (by simp [chunksGo])
  | succ fuel ih =>
    intro l c hc
    rcases l with _ | ⟨b, t⟩
    · exact absurd hc (by simp [chunksGo])
    · rw [show chunksGo cs (fuel + 1) (b :: t) =
          (b :: t).take cs :: chunksGo cs fuel ((b :: t).drop cs) from rfl] at hc
      rcases List.mem_cons.mp hc with heq | hmem
      · subst heq
        constructor
        · simp
        · rcases cs with _ | cs2
          · omega
          · simp
      · exact ih _ c hmem

/-- C5: if the single-shot PUT /upload fails after its own retries are
exhausted, upload_file sends a best-effort POST /upload_abort and falls
back to the legacy three-phase protocol — POST /upload_begin announcing
the file size, PUT /upload_chunk calls carrying fixed-size chunks read
sequentially from the source file (they concatenate back to exactly the
file bytes and each is at most the chunk size, non-empty), then
POST /upload_commit — and any failure during the chunked phase (a chunk
PUT or the commit, the body of the try block) triggers a best-effort
POST /upload_abort before the error propagates to the caller. A
successful single-shot PUT performs no other operation. -/
theorem upload_file_fallback :
    (∀ (env : Nat → Bool) (content : List Nat) (cs : Nat), env 0 = true →
        upload_file env content cs = (true, [UpOp.putSingle content.length])) ∧
    (∀ (env : Nat → Bool) (content : List Nat) (cs : Nat), env 0 = false →
        ∃ t, (upload_file env content cs).2 =
          UpOp.putSingle content.length :: UpOp.abortPost ::
            UpOp.beginPost content.length :: t) ∧
    (∀ (env : Nat → Bool) (content : List Nat) (cs : Nat),
        env 0 = false → env 2 = true →
        (upload_file env content cs).1 = false →
        ∃ t2, (upload_file env content cs).2 = t2 ++ [UpOp.abortPost]) ∧
    (∀ (cs : Nat) (content : List Nat), 0 < cs →
        (chunksOf cs content).flatten = content ∧
        ∀ c ∈ chunksOf cs content, c.length ≤ cs ∧ c ≠ []) ∧
    upload_file (fun n => decide (n ≠ 0)) [1, 2, 3, 4, 5] 2 =
      (true, [UpOp.putSingle 5, UpOp.abortPost, UpOp.beginPost 5,
        UpOp.chunkPut [1, 2], UpOp.chunkPut [3, 4], UpOp.chunkPut [5],
        UpOp.commitPost]) := by
  refine ⟨?_, ?_, ?_, ?_, by decide⟩
  · intro env content cs h0
    simp [upload_file, h0]
  · intro env content cs h0
    by_cases h2 : env 2 = true
    · by_cases hch : (uploadChunksGo env 3 (chunksOf cs content)).1 = true
      · by_cases hcm : env (uploadChunksGo env 3 (chunksOf cs content)).2.1 = true
        · exact ⟨(uploadChunksGo env 3 (chunksOf cs content)).2.2 ++ [UpOp.commitPost],
            by simp [upload_file, h0, h2, hch, hcm]⟩
        · rw [Bool.not_eq_true] at hcm
          exact ⟨(uploadChunksGo env 3 (chunksOf cs content)).2.2 ++
              [UpOp.commitPost, UpOp.abortPost],
            by simp [upload_file, h0, h2, hch, hcm]⟩
      · rw [Bool.not_eq_true] at hch
        exact ⟨(uploadChunksGo env 3 (chunksOf cs content)).2.2 ++ [UpOp.abortPost],
          by simp [upload_file, h0, h2, hch]⟩
    · rw [Bool.not_eq_true] at h2
      exact ⟨[], by simp [upload_file, h0, h2]⟩
  · intro env content cs h0 h2 hfail
    by_cases hch : (uploadChunksGo env 3 (chunksOf cs content)).1 = true
    · by_cases hcm : env (uploadChunksGo env 3 (chunksOf cs content)).2.1 = true
      · exact absurd hfail (by simp [upload_file, h0, h2, hch, hcm])
      · rw [Bool.not_eq_true] at hcm
        refine ⟨UpOp.putSingle content.length :: UpOp.abortPost ::
          UpOp.beginPost content.length ::
          ((uploadChunksGo env 3 (chunksOf cs content)).2.2 ++ [UpOp.commitPost]), ?_⟩
        simp [upload_file, h0, h2, hch, hcm]
    · rw [Bool.not_eq_true] at hch
      refine ⟨UpOp.putSingle content.length :: UpOp.abortPost ::
        UpOp.beginPost content.length ::
        (uploadChunksGo env 3 (chunksOf cs content)).2.2, ?_⟩
      simp [upload_file, h0, h2, hch]
  · intro cs content hcs
    exact ⟨chunksGo_flatten cs hcs content.length content (Nat.le_refl _),
      chunksGo_length_le cs hcs content.length content⟩

/-- Externally visible phases of one cycle of main, in program order up to
the first upload attempt: the MODE UPLOAD ON serial exchange, the
wait_network_ready serial polling, the wait_health_reachable HTTP
GET /health probing (network I/O), and the launch of the upload
subprocess (upload network I/O). -/
inductive CycleEvent
  | modeSerial
  | netReadySerial
  | healthProbeHttp
  | uploadLaunchHttp
deriving DecidableEq

/-- Outcome of the cycle prelude: the fatal remote-path error raised out
of the cycle loop (never retried), or control proceeding to the upload
retry loop. -/
inductive CycleOutcome
  | fatalPath (msg : String)
  | proceed
deriving DecidableEq

/-- Embedding of the remote file name built by main:
cycle_root = remote_root + "/cycle-" + str(cycle) and
remote_file = cycle_root + "/" + Path(payload_path).name. -/
def remoteFileFor (remoteRoot : String) (idx : Nat) (payloadName : String) : String :=
  remoteRoot ++ "/cycle-" ++ toString idx ++ "/" ++ payloadName

/-- Embedding of the straight-line body of one cycle of main through the
remote-path length check, in the scenario where the mode, readiness and
health phases all succeed (as in the claim being checked): MODE UPLOAD ON,
wait_network_ready, wait_health_reachable (HTTP health probes) run first,
then the remote path is built and len(remote_file) > 64 raises the
SD_PATH_MAX RuntimeError before the upload loop; otherwise the upload
subprocess is launched. -/
def cyclePrelude (remoteRoot payloadName : String) (idx : Nat) :
    List CycleEvent × CycleOutcome :=
  if 64 < (remoteFileFor remoteRoot idx payloadName).length then
    ([CycleEvent.modeSerial, CycleEvent.netReadySerial, CycleEvent.healthProbeHttp],
      CycleOutcome.fatalPath ("remote path exceeds SD_PATH_MAX(64): " ++
        remoteFileFor remoteRoot idx payloadName))
  else
    ([CycleEvent.modeSerial, CycleEvent.netReadySerial, CycleEvent.healthProbeHttp,
        CycleEvent.uploadLaunchHttp],
      CycleOutcome.proceed)

/-- C7 counterexample: the 64-character remote-path check is NOT reached
before any network I/O. With the default remote root and a 50-character
payload file name, the cycle raises the fatal SD_PATH_MAX error, but the
HTTP health probing of wait_health_reachable — network I/O — has already
run by then, refuting the claim that the failure occurs before any
network I/O is attempted. -/
theorem remote_path_check_after_health_probe :
    (cyclePrelude "/assets/u" (String.mk (List.replicate 50 'a')) 1).2 =
      CycleOutcome.fatalPath ("remote path exceeds SD_PATH_MAX(64): " ++
        remoteFileFor "/assets/u" 1 (String.mk (List.replicate 50 'a'))) ∧
    CycleEvent.healthProbeHttp ∈
      (cyclePrelude "/assets/u" (String.mk (List.replicate 50 'a')) 1).1 ∧
    CycleEvent.uploadLaunchHttp ∉
      (cyclePrelude "/assets/u" (String.mk (List.replicate 50 'a')) 1).1 := by
  refine ⟨?_, by decide, by decide⟩
  decide

/-- C7 amended: main validates the cycle's remote file path against the
fixed 64-character maximum, and a path exceeding 64 characters raises a
fatal configuration error that is not retried, with the failure occurring
before the upload is attempted (no upload network I/O) — though after the
cycle's serial phases and the HTTP health probing, which precede the
check in program order. Paths of at most 64 characters proceed to the
upload. -/
theorem remote_path_check_amended :
    (∀ (root name : String) (idx : Nat),
        64 < (remoteFileFor root idx name).length →
        cyclePrelude root name idx =
          ([CycleEvent.modeSerial, CycleEvent.netReadySerial, CycleEvent.healthProbeHttp],
            CycleOutcome.fatalPath ("remote path exceeds SD_PATH_MAX(64): " ++
              remoteFileFor root idx name)) ∧
        CycleEvent.uploadLaunchHttp ∉ (cyclePrelude root name idx).1) ∧
    (∀ (root name : String) (idx : Nat),
        (remoteFileFor root idx name).length ≤ 64 →
        cyclePrelude root name idx =
          ([CycleEvent.modeSerial, CycleEvent.netReadySerial, CycleEvent.healthProbeHttp,
              CycleEvent.uploadLaunchHttp],
            CycleOutcome.proceed)) ∧
    cyclePrelude "/assets/u" "u.bin" 1 =
      ([CycleEvent.modeSerial, CycleEvent.netReadySerial, CycleEvent.healthProbeHttp,
          CycleEvent.uploadLaunchHttp],
        CycleOutcome.proceed) := by
  refine ⟨?_, ?_, by decide⟩
  · intro root name idx h
    constructor
    · unfold cyclePrelude
      rw [if_pos h]
    · unfold cyclePrelude
      rw [if_pos h]
      intro hmem
      rcases List.mem_cons.mp hmem with heq | hmem2
      · exact CycleEvent.noConfusion heq
      · rcases List.mem_cons.mp hmem2 with heq | hmem3
        · exact CycleEvent.noConfusion heq
        · rcases List.mem_cons.mp hmem3 with heq | hmem4
          · exact CycleEvent.noConfusion heq
          · simp at hmem4
  · intro root name idx h
    unfold cyclePrelude
    rw [if_neg (by omega)]

/-- Reply behaviour of the device during one attempt of serial_preflight:
a PONG within the 2.5 s window, a DOWNLOAD_BOOT line with no PONG,
silence, or an exception raised while probing. -/
inductive ProbeResult
  | pongReply
  | downloadBoot
  | silent
  | raised (msg : String)
deriving DecidableEq

/-- Result of serial_preflight: an open console, or the fatal RuntimeError
carrying the last failure reason. -/
inductive PreflightResult
  | consoleReady
  | preflightError (msg : String)
deriving DecidableEq

/-- Embedding of serial_preflight from test_wifi_upload_regression_serial.py:
up to three attempts (the list holds one probe outcome per attempt); a
PONG returns the console, a DOWNLOAD_BOOT line, silence or an exception
each record their failure reason and retry; exhausting the attempts
raises "serial preflight failed: " plus the last reason. -/
def serial_preflight : List ProbeResult → String → PreflightResult
  | [], lastErr => .preflightError ("serial preflight failed: " ++ lastErr)
  | vr :: rest, _ =>
    match vr with
    | .pongReply => .consoleReady
    | .downloadBoot => serial_preflight rest "device stuck in ROM download boot"
    | .silent => serial_preflight rest "no PONG"
    | .raised m => serial_preflight rest m

/-- How main of test_wifi_upload_regression_serial.py leaves the process:
a return value from main() handed to SystemExit (with the stderr
diagnostics emitted), or the raise SystemExit(str) taken for a missing
serial port, whose payload is a string rather than an integer. -/
inductive MainExit
  | returned (code : Nat) (stderrLines : List String)
  | sysExitPayload (msg : String)
deriving DecidableEq

/-- CPython semantics of process termination via SystemExit: an integer
payload is the exit status; a non-integer payload (the string raised for
the missing ESPFLASH_PORT) is printed to stderr and the process exits
with status 1. -/
def processExitCode : MainExit → Nat
  | .returned code _ => code
  | .sysExitPayload _ => 1

/-- Outcome of the regression run body after a successful preflight. -/
inductive RunOutcome
  | allCyclesPass
  | failed (msg : String)
deriving DecidableEq

/-- Embedding of Python str.strip() on a Lean string. -/
def pstripStr (s : String) : String :=
  String.mk (pstrip s.toList)

/-- Embedding of the top level of main: the ESPFLASH_PORT guard
(raise SystemExit("ESPFLASH_PORT must be set") when the stripped
environment value is empty — the missing variable defaults to ""),
then serial preflight inside the try block (its RuntimeError is caught
by the except handler, which prints "[FAIL] ..." and returns 1), then
the cycle loop returning 0 on success and 1 on any caught failure. -/
def main_model (portEnv : String) (probes : List ProbeResult) (run : RunOutcome) :
    MainExit :=
  if pstripStr portEnv = "" then .sysExitPayload "ESPFLASH_PORT must be set"
  else
    match serial_preflight probes "unknown" with
    | .preflightError e => .returned 1 ["[FAIL] " ++ e]
    | .consoleReady =>
      match run with
      | .allCyclesPass => .returned 0 []
      | .failed m => .returned 1 ["[FAIL] " ++ m]

/-- C8 counterexample: a missing ESPFLASH_PORT does not exit with code 2.
The guard raises SystemExit with the string payload
"ESPFLASH_PORT must be set", and CPython exits with status 1 for a
non-integer SystemExit payload, so the configuration error exits 1. -/
theorem missing_port_exit_code_counterexample :
    main_model "" [] RunOutcome.allCyclesPass =
      MainExit.sysExitPayload "ESPFLASH_PORT must be set" ∧
    processExitCode (main_model "" [] RunOutcome.allCyclesPass) = 1 ∧
    processExitCode (main_model "" [] RunOutcome.allCyclesPass) ≠ 2 := by
  refine ⟨by decide, by decide, by decide⟩

/-- C8 amended: the orchestrator exits 0 on a fully successful run and 1
on a run failure — in particular, a device that never answers PING across
the 3 preflight attempts yields exit code 1 with a message mentioning
"serial preflight failed" — while the missing required ESPFLASH_PORT
environment variable also produces exit status 1 (not 2): SystemExit is
raised with a string payload, which CPython maps to status 1. -/
theorem exit_codes_amended :
    (∀ (port : String) (probes : List ProbeResult), pstripStr port ≠ "" →
        serial_preflight probes "unknown" = PreflightResult.consoleReady →
        main_model port probes RunOutcome.allCyclesPass = MainExit.returned 0 []) ∧
    (∀ (port m : String) (probes : List ProbeResult), pstripStr port ≠ "" →
        serial_preflight probes "unknown" = PreflightResult.consoleReady →
        main_model port probes (RunOutcome.failed m) =
          MainExit.returned 1 ["[FAIL] " ++ m]) ∧
    (∀ (port : String) (run : RunOutcome), pstripStr port ≠ "" →
        main_model port [ProbeResult.silent, ProbeResult.silent, ProbeResult.silent] run =
          MainExit.returned 1 ["[FAIL] serial preflight failed: no PONG"]) ∧
    hasSeq "serial preflight failed".toList
      "[FAIL] serial preflight failed: no PONG".toList = true ∧
    (∀ (probes : List ProbeResult) (run : RunOutcome),
        main_model "" probes run = MainExit.sysExitPayload "ESPFLASH_PORT must be set" ∧
        processExitCode (main_model "" probes run) = 1) ∧
    main_model "/dev/ttyUSB0" [ProbeResult.pongReply] RunOutcome.allCyclesPass =
      MainExit.returned 0 [] := by
  refine ⟨?_, ?_, ?_, by decide, ?_, by decide⟩
  · intro port probes hport hpre
    unfold main_model
    rw [if_neg hport, hpre]
  · intro port m probes hport hpre
    unfold main_model
    rw [if_neg hport, hpre]
  · intro port run hport
    unfold main_model
    rw [if_neg hport]
    rfl
  · intro probes run
    have h : main_model "" probes run =
        MainExit.sysExitPayload "ESPFLASH_PORT must be set" := by
      unfold main_model
      rw [if_pos (by decide)]
    exact ⟨h, by rw [h]; rfl⟩

end Meditamer
